import Mathlib

/-!
Verification development for the qsub job-monitoring module (src/qsub.py).

The module is embedded shallowly:

* text is modelled as `List Char`; a qstat snapshot is the raw stdout text;
* the two regular expressions of `Job.get_job` / `Job.get_status` are
  embedded by their derived matching semantics (documented at each
  definition);
* the module-global `job_state_key` defaultdict is an association list with
  explicit defaultdict lookup semantics (a missing key is inserted with the
  default value `None`);
* a `Job` object is a record of its attributes; `_update` / `_debug_update`
  are functions from a snapshot (and the shared state table) to a new record;
* `monitor_jobs` is a state-passing translation of the polling loop; each
  predicate call (`present()` / `error()`) consumes one snapshot from the
  environment stream `env : Nat -> List Char` (one entry per `qstat()` call),
  matching the code, where every predicate call performs a fresh poll.
-/

/-- Python regex class \s over the ASCII range: space, tab, newline,
carriage return, vertical tab, form feed. -/
def isWsB (c : Char) : Bool :=
  c = ' ' || c = '\t' || c = '\n' || c = '\r' || c = '\x0b' || c = '\x0c'

/-- Python regex class [a-zA-Z]. -/
def isAlphaB (c : Char) : Bool :=
  ('a' ≤ c && c ≤ 'z') || ('A' ≤ c && c ≤ 'Z')

/-- ASCII letters and digits; used as a well-formedness bound on job
identifiers (no whitespace, no regex metacharacters). -/
def isAlphaNumB (c : Char) : Bool :=
  isAlphaB c || ('0' ≤ c && c ≤ '9')

/-- Python `text.split(chr(10))`: splitting an empty text gives one empty
line, and a trailing newline gives a trailing empty line. -/
def splitLines : List Char → List (List Char)
  | [] => [[]]
  | c :: rest =>
    if c = '\n' then [] :: splitLines rest
    else
      match splitLines rest with
      | [] => [[c]]
      | l :: ls => (c :: l) :: ls

/-- The WITHIN-LINE match predicate for the `Job.get_job` pattern
r"^\s*{id}\s.*$" (re.MULTILINE): after stripping leading whitespace the
line starts with the identifier followed by a whitespace character on the
same line (the identifier is the line's first whitespace-delimited field).
This is one case of the full pattern; the regex's \s after the identifier
may also be the line's own newline, and the \s* may cross newlines - the
full findall semantics, covering those cases too, is `findEntriesGo`
below.  `matchLine` is used to characterize the scan on snapshots where
the cross-line cases do not fire. -/
def matchLine (id l : List Char) : Bool :=
  let r := l.dropWhile isWsB
  id.isPrefixOf r &&
    match r.drop id.length with
    | c :: _ => isWsB c
    | [] => false

/-- One attempt of the pattern r"^\s*{id}\s.*$" at a line-start anchor,
over the remaining lines of the snapshot.  `acc` is the text the greedy
\s* has consumed from earlier whitespace-only lines (with their
newlines).  At the first line with non-whitespace content, \s* stops at
its leading whitespace and the identifier must follow; then the single \s
is either a whitespace character on the same line (the match runs to the
end of that line) or, when the identifier ends the line, the line's own
newline (the `.*` then swallows the entire NEXT line).  Returns the
matched text and the unconsumed lines.  The \s*-placement is
deterministic because job identifiers start with a non-whitespace
character (all theorems assume alphanumeric identifiers). -/
def matchAtAnchor (id : List Char) :
    List Char → List (List Char) → Option (List Char × List (List Char))
  | _, [] => none
  | acc, l :: ls =>
    if l.all isWsB then matchAtAnchor id (acc ++ l ++ ['\n']) ls
    else
      let core := l.dropWhile isWsB
      if id.isPrefixOf core then
        match core.drop id.length with
        | c :: _ => if isWsB c then some (acc ++ l, ls) else none
        | [] =>
          match ls with
          | l' :: ls' => some (acc ++ l ++ '\n' :: l', ls')
          | [] => none
      else none

/-- The left-to-right, non-overlapping scan of re.findall: anchors are
line starts; a successful match consumes through the end of the line (or
of the swallowed next line) and scanning resumes at the next line; a
failed anchor advances one line.  The fuel is the number of lines, which
always suffices because every step consumes at least one line. -/
def findEntriesGo (id : List Char) : Nat → List (List Char) → List (List Char)
  | 0, _ => []
  | _ + 1, [] => []
  | fuel + 1, l :: ls =>
    match matchAtAnchor id [] (l :: ls) with
    | some (m, rem) => m :: findEntriesGo id fuel rem
    | none => findEntriesGo id fuel ls

/-- `Job.get_job`: re.findall of r"^\s*{id}\s.*$" (re.MULTILINE) over the
snapshot, returning the matched texts in order (a match may span more than
one line through the whitespace class). -/
def getJobLines (id snap : List Char) : List (List Char) :=
  findEntriesGo id (splitLines snap).length (splitLines snap)

/-- The single-quote character used by Python repr of a string. -/
def quoteC : Char := Char.ofNat 39

/-- Whether Python repr leaves a character unescaped (within the scope of
snapshots containing no quote or backslash characters): everything except
the whitespace control characters that repr escapes. -/
def reprPlain (c : Char) : Bool :=
  !(c = '\n' || c = '\t' || c = '\r' || c = '\x0b' || c = '\x0c')

/-- Python repr of one character inside a single-quoted string literal:
newline, tab, carriage return and the two other whitespace controls are
escaped (into ordinary non-whitespace characters), the rest kept.
(Quote and backslash characters are outside the modelled snapshot
alphabet.) -/
def pyReprChar (c : Char) : List Char :=
  if c = '\n' then ['\\', 'n']
  else if c = '\t' then ['\\', 't']
  else if c = '\r' then ['\\', 'r']
  else if c = '\x0b' then ['\\', 'x', '0', 'b']
  else if c = '\x0c' then ['\\', 'x', '0', 'c']
  else [c]

/-- Python repr of a string's characters (without the surrounding
quotes). -/
def pyReprStr : List Char → List Char
  | [] => []
  | c :: l => pyReprChar c ++ pyReprStr l

/-- Python `str(entry)` for `entry` a list of strings: the bracketed,
comma-separated list of single-quoted reprs, e.g. str([]) is the two
characters bracket-bracket. -/
def pyStrItems : List (List Char) → List Char
  | [] => []
  | [l] => quoteC :: pyReprStr l ++ [quoteC]
  | l :: l' :: ls =>
    quoteC :: pyReprStr l ++ quoteC :: ',' :: ' ' :: pyStrItems (l' :: ls)

def pyStrList (ls : List (List Char)) : List Char :=
  '[' :: pyStrItems ls ++ [']']

/-- The suffix of `S` after the first (leftmost) occurrence of `id` as a
substring, or `none` when `id` does not occur. -/
def dropAfterFirst (id : List Char) : List Char → Option (List Char)
  | [] => if id.isPrefixOf ([] : List Char) then some [] else none
  | c :: rest =>
    if id.isPrefixOf (c :: rest) then some ((c :: rest).drop id.length)
    else dropAfterFirst id rest

/-- Whether a candidate of the shape \s([a-zA-Z]+)\s starts at the head of
`c :: rest`: `c` is whitespace, the maximal letter run at the head of `rest`
is nonempty, and the character right after that run is whitespace.  Returns
the captured run. -/
def candHere (c : Char) (rest : List Char) : Option (List Char) :=
  if isWsB c then
    let r := rest.takeWhile isAlphaB
    if r.isEmpty then none
    else
      match rest.drop r.length with
      | d :: _ => if isWsB d then some r else none
      | [] => none
  else none

/-- The capture of the LAST candidate \s([a-zA-Z]+)\s in the text (the
rightmost whitespace-delimited maximal letter run that is followed by a
whitespace character). -/
def lastCand : List Char → Option (List Char)
  | [] => none
  | c :: rest =>
    match lastCand rest with
    | some x => some x
    | none => candHere c rest

/-- Derived semantics of `Job.get_status`'s
re.search(r"^.*\s*{id}.*\s([a-zA-Z]+)\s.*$", S) on a newline-free text S:
the leading greedy `.*` places the identifier match as late as possible
while the rest still matches, and the inner greedy `.*` then captures the
last \s([a-zA-Z]+)\s candidate after it; this is exactly the last candidate
occurring after the end of the first occurrence of `id` (a candidate lies
after some occurrence of `id` iff it lies after the first one). `none` when
either `id` does not occur or no candidate follows it. -/
def extractTok (id S : List Char) : Option (List Char) :=
  (dropAfterFirst id S).bind lastCand

/-- `Job.get_status(id, entry, qstat_stdout)`: when the passed entry list is
empty (falsy) it is recomputed from the snapshot; the regex is then searched
over the Python str() rendering of the entry list. -/
def getStatusM (id : List Char) (entry : List (List Char)) (snap : List Char) :
    Option (List Char) :=
  let e := if entry.isEmpty then getJobLines id snap else entry
  extractTok id (pyStrList e)

/-- `Job.get_is_present(id, entry, qstat_stdout)`: truthiness of the entry
list (recomputed from the snapshot when empty, which yields the same empty
list). -/
def getIsPresentM (entry : List (List Char)) : Bool :=
  !entry.isEmpty

/-- The module-global state table: an insertion-ordered association list of
string keys to `Option` string values (`none` is Python `None`). -/
abbrev StateTable := List (List Char × Option (List Char))

/-- The global `job_state_key` defaultdict right after module
initialization: Eqw, r, qw explicitly mapped, t and dr explicitly mapped to
None, default None. -/
def job_state_key : StateTable :=
  [("Eqw".data, some ("Error".data)),
   ("r".data, some ("Running".data)),
   ("qw".data, some ("Waiting".data)),
   ("t".data, none),
   ("dr".data, none)]

/-- Plain association-list lookup (first match). -/
def assocFind : StateTable → List Char → Option (Option (List Char))
  | [], _ => none
  | (k, v) :: r, key => if key = k then some v else assocFind r key

/-- defaultdict lookup: a hit returns the stored value and leaves the table
unchanged; a miss returns the default (`None`) and INSERTS the key with the
default value at the end of the table (Python dicts preserve insertion
order). -/
def ddGet (tbl : StateTable) (key : List Char) :
    Option (List Char) × StateTable :=
  match assocFind tbl key with
  | some v => (v, tbl)
  | none => (none, tbl ++ [(key, none)])

/-- Python `str(status)` where `status` is either a string or `None`. -/
def pyStrOpt : Option (List Char) → List Char
  | none => "None".data
  | some s => s

/-- `Job.get_state(status, job_state_key)`: looks up str(status) in the
(default)dict and returns the value together with the possibly-grown
table. -/
def get_state (tbl : StateTable) (status : Option (List Char)) :
    Option (List Char) × StateTable :=
  ddGet tbl (pyStrOpt status)

/-- The spec's enumerated lifecycle states. -/
inductive LifecycleState where
  | Running
  | Waiting
  | Error
  | Unknown
  deriving DecidableEq, Repr

/-- Abstraction of the stored state value (a Python string or None) to the
spec's enumeration; the table only ever stores Error, Running, Waiting or
None, and None is the spec's Unknown. -/
def interpState : Option (List Char) → LifecycleState
  | none => .Unknown
  | some s =>
    if s = "Error".data then .Error
    else if s = "Running".data then .Running
    else if s = "Waiting".data then .Waiting
    else .Unknown

/-- Modelled from the spec's classification table (section 4.2): r maps to
Running, qw to Waiting, Eqw to Error, t and dr to Unknown, anything else
including an absent status to Unknown.  Used only as the spec side of the
refinement comparison. -/
def specClassify : Option (List Char) → LifecycleState
  | none => .Unknown
  | some s =>
    if s = "r".data then .Running
    else if s = "qw".data then .Waiting
    else if s = "Eqw".data then .Error
    else if s = "t".data then .Unknown
    else if s = "dr".data then .Unknown
    else .Unknown

/-- A `Job` object: the identifier plus the attributes assigned by
`_update` / `_debug_update`.  Attributes are `Option`-wrapped because a
debug-constructed Job has none of them until its first update. -/
structure JobM where
  id : List Char
  name : Option (List Char) := none
  qstat_stdout : Option (List Char) := none
  entry : Option (List (List Char)) := none
  status : Option (Option (List Char)) := none
  state : Option (Option (List Char)) := none
  is_running : Option Bool := none
  is_error : Option Bool := none
  is_present : Option Bool := none
  deriving DecidableEq, Repr

/-- `Job._update` against one snapshot: recomputes entry, status, state and
ALL THREE derived booleans; the shared state table is threaded because the
defaultdict lookup may insert a missing key. -/
def jobUpdate (tbl : StateTable) (snap : List Char) (j : JobM) :
    JobM × StateTable :=
  let entryL := getJobLines j.id snap
  let statusV := getStatusM j.id entryL snap
  let st := get_state tbl statusV
  ({ j with
      qstat_stdout := some snap,
      entry := some entryL,
      status := some statusV,
      state := some st.1,
      is_running := some (decide (st.1 = some ("Running".data))),
      is_error := some (decide (st.1 = some ("Error".data))),
      is_present := some (getIsPresentM entryL) },
   st.2)

/-- `Job._debug_update` against one snapshot: identical to `_update` except
that it never assigns `is_error` (the source omits that line), so the
previous value of `is_error` survives. -/
def jobDebugUpdate (tbl : StateTable) (snap : List Char) (j : JobM) :
    JobM × StateTable :=
  let entryL := getJobLines j.id snap
  let statusV := getStatusM j.id entryL snap
  let st := get_state tbl statusV
  ({ j with
      qstat_stdout := some snap,
      entry := some entryL,
      status := some statusV,
      state := some st.1,
      is_running := some (decide (st.1 = some ("Running".data))),
      is_present := some (getIsPresentM entryL) },
   st.2)

/-- Observable events of one poll cycle of `monitor_jobs`, recorded in
program order: a presence check on a job (with its result), an in-place
removal from the active list, an error check (with its result), and a pop
into the stuck list. -/
inductive Ev where
  | presentChk (id : List Char) (res : Bool)
  | removedAbs (id : List Char)
  | errorChk (id : List Char) (res : Bool)
  | movedStuck (id : List Char)
  deriving DecidableEq, Repr

/-- Monitor state: poll counter `t` (index into the snapshot stream), the
shared state table, the caller's (mutated in place) active list `jobs`, the
stuck list `err_jobs`, the ghost list of jobs removed for absence, the event
trace, and the list of cancel commands issued so far. -/
structure MSt where
  t : Nat
  tbl : StateTable
  jobs : List JobM
  errs : List JobM
  removed : List JobM
  trace : List Ev
  cancels : List (List Char)
  deriving DecidableEq, Repr

/-- Python `list.remove(x)`: delete the first element equal to `x`.
(Python compares objects by identity here; structural equality coincides
with it when, as in the monitored cohorts we quantify over, no two handles
are structurally identical.)  The element is guaranteed present at the call
sites below, so the no-match case (Python ValueError) is a no-op. -/
def pyRemove : List JobM → JobM → List JobM
  | [], _ => []
  | y :: rest, x => if y = x then rest else y :: pyRemove rest x

/-- Outcome of the inner for-loop of `monitor_jobs`: normal completion,
an uncaught IndexError from `jobs.pop(i)`, or exhaustion of the structural
fuel (which never happens when the fuel is at least the list length; see
`cycleLoopF_no_fuelOut`). -/
inductive CycleRes where
  | ok (s : MSt)
  | indexErr
  | outOfFuel
  deriving DecidableEq, Repr

/-- One iteration body of the loop `for i, job in enumerate(jobs)` of
`monitor_jobs`, with the list mutated while iterating, exactly as in the
source: `job.present()` performs a fresh poll and mutates the object (so the
list slot is updated); if absent, `jobs.remove(job)`; then `job.error()`
performs ANOTHER fresh poll; if it returns true,
`err_jobs.append(jobs.pop(i))` pops position i of the CURRENT list (`none`
models the uncaught IndexError when i is out of range). -/
def cycleStep (env : Nat → List Char) (i : Nat) (s : MSt) (job : JobM) :
    Option MSt :=
  let u₁ := jobUpdate s.tbl (env s.t) job
  let j₁ := u₁.1
  let p := j₁.is_present.getD false
  let jobs₁ := s.jobs.set i j₁
  let jobs₂ := if p then jobs₁ else pyRemove jobs₁ j₁
  let removed₂ := if p then s.removed else s.removed ++ [j₁]
  let trace₂ := s.trace ++ [.presentChk job.id p] ++
    (if p then [] else [.removedAbs j₁.id])
  let u₂ := jobUpdate u₁.2 (env (s.t + 1)) j₁
  let j₂ := u₂.1
  let e := j₂.is_error.getD false
  let jobs₃ := if p then jobs₂.set i j₂ else jobs₂
  let trace₃ := trace₂ ++ [.errorChk j₁.id e]
  if e then
    match jobs₃.get? i with
    | some stuck =>
      some { t := s.t + 2, tbl := u₂.2, jobs := jobs₃.eraseIdx i,
             errs := s.errs ++ [stuck], removed := removed₂,
             trace := trace₃ ++ [.movedStuck stuck.id],
             cancels := s.cancels }
    | none => none
  else
    some { t := s.t + 2, tbl := u₂.2, jobs := jobs₃, errs := s.errs,
           removed := removed₂, trace := trace₃, cancels := s.cancels }

/-- The inner for-loop of `monitor_jobs`: `enumerate` fetches jobs[i] and
advances i by one each iteration regardless of the in-place mutations; the
loop ends when i reaches the CURRENT list length. -/
def cycleLoopF (env : Nat → List Char) : Nat → Nat → MSt → CycleRes
  | 0, i, s => if s.jobs.length ≤ i then .ok s else .outOfFuel
  | fuel + 1, i, s =>
    match s.jobs.get? i with
    | some job =>
      match cycleStep env i s job with
      | some s₁ => cycleLoopF env fuel (i + 1) s₁
      | none => .indexErr
    | none => .ok s

/-- One full poll cycle, started at index 0; the fuel `s.jobs.length` always
suffices because the list never grows and `i` increases each iteration. -/
def monitorCycle (env : Nat → List Char) (s : MSt) : CycleRes :=
  cycleLoopF env s.jobs.length 0 s

/-- The single batched cancel command issued after the loop:
`qdel id1 id2 ...` over all stuck jobs. -/
def qdelCmd (errs : List JobM) : List Char :=
  "qdel ".data ++ (List.intercalate (" ".data) (errs.map JobM.id))

/-- The post-loop code of `monitor_jobs`: if the stuck list is nonempty and
`kill_err` is set, issue exactly one qdel command for the whole batch. -/
def postProc (kill_err : Bool) (s : MSt) : MSt :=
  if s.errs.isEmpty then s
  else if kill_err then { s with cancels := s.cancels ++ [qdelCmd s.errs] }
  else s

/-- Outcome of the polling loop of `monitor_jobs`. -/
inductive MonOut where
  | finished (s : MSt)
  | crashed
  | fuelOut
  | broken
  deriving DecidableEq, Repr

/-- The `while num_jobs > 0` loop: at the top of each cycle `num_jobs` is
refreshed to the CURRENT list length, then the inner for-loop runs (possibly
shrinking the list), and the while condition re-checks the value captured at
the top.  `fuel` bounds the number of while iterations (the Python loop can
spin forever; claims about normal returns are conditioned on `finished`). -/
def monitorLoop (env : Nat → List Char) (kill_err : Bool) :
    Nat → Nat → MSt → MonOut
  | 0, n, s => if n > 0 then .fuelOut else .finished (postProc kill_err s)
  | fuel + 1, n, s =>
    if n > 0 then
      match monitorCycle env s with
      | .ok s' => monitorLoop env kill_err fuel s.jobs.length s'
      | .indexErr => .crashed
      | .outOfFuel => .broken
    else .finished (postProc kill_err s)

/-- The dynamic `jobs` argument of `monitor_jobs`: Python None, an actual
list, some other sized object (has len(), e.g. a tuple or dict; its
truthiness is its own), or an object without len() (e.g. an int), whose
truthiness is given. -/
inductive JobsArg where
  | pynone
  | pylist (l : List JobM)
  | sizedOther (truthy : Bool) (len : Nat)
  | unsized (truthy : Bool)
  deriving DecidableEq, Repr

/-- Python truthiness of the argument: None is falsy, a list is truthy iff
nonempty. -/
def argTruthy : JobsArg → Bool
  | .pynone => false
  | .pylist l => !l.isEmpty
  | .sizedOther t _ => t
  | .unsized t => t

/-- Python `len(jobs)`: `none` means len() raises TypeError. -/
def pyLen : JobsArg → Option Nat
  | .pynone => none
  | .pylist l => some l.length
  | .sizedOther _ n => some n
  | .unsized _ => none

/-- Result of a `monitor_jobs` call: a graceful early return with the logged
error message, an uncaught TypeError from `len()` on an unsized argument, or
a run of the polling loop. -/
inductive MonRes where
  | earlyRet (log : List Char)
  | typeError
  | ran (out : MonOut)
  deriving DecidableEq, Repr

/-- `monitor_jobs(jobs, kill_err)`: the two guards
(`if not jobs or len(jobs) < 1: return` and
`if not isinstance(jobs, list): return`) followed by the polling loop,
started with `num_jobs = len(jobs)`, empty stuck list and poll counter 0.
`tbl` is the module-global `job_state_key` at call time. -/
def monitor_jobs (jobs : JobsArg) (kill_err : Bool) (env : Nat → List Char)
    (fuel : Nat) (tbl : StateTable) : MonRes :=
  if argTruthy jobs = false then .earlyRet ("No jobs to monitor".data)
  else
    match pyLen jobs with
    | none => .typeError
    | some n =>
      if n < 1 then .earlyRet ("No jobs to monitor".data)
      else
        match jobs with
        | .pylist l =>
          .ran (monitorLoop env kill_err fuel l.length
            { t := 0, tbl := tbl, jobs := l, errs := [], removed := [],
              trace := [], cancels := [] })
        | _ => .earlyRet ("jobs passed is not a list".data)

/-- Projection used to state claims about normal returns. -/
def finishedState : MonRes → Option MSt
  | .ran (.finished s) => some s
  | _ => none

/-- The invalid-argument shapes named by the claim: None, an empty list, or
not a list at all. -/
def isInvalidArg : JobsArg → Bool
  | .pynone => true
  | .pylist l => l.isEmpty
  | .sizedOther _ _ => true
  | .unsized _ => true

/-- Multiset of job identifiers, for the conservation statement. -/
def idsM (l : List JobM) : Multiset (List Char) :=
  (l.map JobM.id : List (List Char))

/-- Fresh monitor state over a cohort, as built by `monitor_jobs` before the
loop (poll counter 0, module-initial state table, empty stuck list). -/
def initSt (l : List JobM) : MSt :=
  { t := 0, tbl := job_state_key, jobs := l, errs := [], removed := [],
    trace := [], cancels := [] }

/-- Concrete job handles for the evaluated scenarios. -/
def jobA : JobM := { id := "111".data }

def jobB : JobM := { id := "222".data }

def jobD : JobM := { id := "321".data }

/-- A snapshot stream whose every snapshot is empty (queue always empty). -/
def emptyEnv : Nat → List Char := fun _ => []

/-- A qstat entry line showing job 111 in Eqw state. -/
def eqwSnap111 : List Char := " 111 0.5 x u Eqw 10/12 1".data

/-- A snapshot stream where the queue is empty at the first poll and then
shows job 111 in Eqw state: the job is absent at its presence check and in
error state at the immediately following error check. -/
def flickerEnv : Nat → List Char := fun t => if t = 0 then [] else eqwSnap111

/-- Trace (or empty for abnormal results) of a cycle result. -/
def cycleTrace : CycleRes → List Ev
  | .ok s => s.trace
  | _ => []

/-- Active list (or empty for abnormal results) of a cycle result. -/
def cycleJobs : CycleRes → List JobM
  | .ok s => s.jobs
  | _ => []

/-- Default monitor state used with `Option.getD` in closed witnesses. -/
def mstDefault : MSt :=
  { t := 0, tbl := [], jobs := [], errs := [], removed := [], trace := [],
    cancels := [] }

/-- State of a normally completed cycle (default for abnormal results). -/
def cycleOkState : CycleRes → MSt
  | .ok s => s
  | _ => mstDefault

/-! Classifier lemmas and claims C4, C5 -/

theorem assocFind_append_single (t : StateTable) (k k₂ : List Char) :
    assocFind (t ++ [(k, none)]) k₂ =
      match assocFind t k₂ with
      | some v => some v
      | none => if k₂ = k then some none else none := by
  induction t with
  | nil => simp [assocFind]
  | cons p t ih =>
    obtain ⟨k', v'⟩ := p
    by_cases h : k₂ = k'
    · simp [assocFind, h]
    · simp [assocFind, h, ih]

/-- Claim C4: classification of a raw status token is total and follows the
fixed table: r to Running, qw to Waiting, Eqw to Error, t and dr to Unknown,
and every other token, an absent status included, to Unknown.  Stated as a
refinement of the spec-side table `specClassify` by the source-side
defaultdict lookup `get_state` on the module-initial table. -/
theorem c4_classify_follows_table :
    ∀ tok : Option (List Char),
      interpState (get_state job_state_key tok).1 = specClassify tok := by
  intro tok
  match tok with
  | none => decide
  | some s =>
    by_cases h1 : s = "Eqw".data
    · subst h1; decide
    by_cases h2 : s = "r".data
    · subst h2; decide
    by_cases h3 : s = "qw".data
    · subst h3; decide
    by_cases h4 : s = "t".data
    · subst h4; decide
    by_cases h5 : s = "dr".data
    · subst h5; decide
    simp [get_state, pyStrOpt, ddGet, assocFind, job_state_key,
      interpState, specClassify, h1, h2, h3, h4, h5]

/-- Claim C5 counterexample: classifying an absent status (key str(None))
against the module-initial table does NOT leave the global table unchanged:
the defaultdict lookup inserts the missing key. -/
theorem c5_classify_mutates_counterex :
    (get_state job_state_key none).2 ≠ job_state_key := by decide

/-- Claim C5 (amended): classification is extensionally pure: the value any
later classification returns is unchanged by a preceding classification,
and for tokens whose key is already in the table the table object itself is
untouched; but classifying a token with a missing key (an absent status
included) appends that key with the default value None to the global
table. -/
theorem c5_classify_extensional :
    ∀ (tbl : StateTable) (tok tok₂ : Option (List Char)),
      ((get_state (get_state tbl tok).2 tok₂).1 = (get_state tbl tok₂).1)
      ∧ (assocFind tbl (pyStrOpt tok) ≠ none → (get_state tbl tok).2 = tbl)
      ∧ (assocFind tbl (pyStrOpt tok) = none →
          (get_state tbl tok).2 = tbl ++ [(pyStrOpt tok, none)]) := by
  intro tbl tok tok₂
  unfold get_state ddGet
  cases h : assocFind tbl (pyStrOpt tok) with
  | some v => simp [h]
  | none =>
    simp only [h]
    refine ⟨?_, by simp, by simp⟩
    rw [assocFind_append_single]
    cases h₂ : assocFind tbl (pyStrOpt tok₂) with
    | some v₂ => simp
    | none =>
      by_cases hk : pyStrOpt tok₂ = pyStrOpt tok <;> simp [hk]

/-- Witness for C5 (amended) at concrete inputs: looking up the present key
r leaves the table unchanged, and a prior lookup of the absent status does
not change what qw classifies to. -/
theorem c5_classify_extensional_witness :
    (get_state job_state_key (some ("r".data))).2 = job_state_key ∧
    (get_state (get_state job_state_key none).2 (some ("qw".data))).1 =
      (get_state job_state_key (some ("qw".data))).1 :=
  ⟨(c5_classify_extensional job_state_key (some ("r".data)) none).2.1
      (by decide),
   (c5_classify_extensional job_state_key none (some ("qw".data))).1⟩

/-! Status-parser lemmas and claim C6 -/

theorem ws_cases (c : Char) (h : isWsB c = true) :
    c = ' ' ∨ c = '\t' ∨ c = '\n' ∨ c = '\r' ∨ c = '\x0b' ∨ c = '\x0c' := by
  have h' := h
  simp only [isWsB, Bool.or_eq_true, decide_eq_true_eq] at h'
  tauto

theorem alpha_not_ws (c : Char) (h : isAlphaB c = true) : isWsB c = false := by
  cases hw : isWsB c with
  | false => rfl
  | true =>
    rcases ws_cases c hw with h' | h' | h' | h' | h' | h' <;>
      (subst h'; exact absurd h (by decide))

theorem ws_not_alpha (c : Char) (h : isWsB c = true) : isAlphaB c = false := by
  cases ha : isAlphaB c with
  | false => rfl
  | true => rw [alpha_not_ws c ha] at h; exact absurd h (by simp)

theorem alphanum_not_ws (c : Char) (h : isAlphaNumB c = true) :
    isWsB c = false := by
  cases hw : isWsB c with
  | false => rfl
  | true =>
    rcases ws_cases c hw with h' | h' | h' | h' | h' | h' <;>
      (subst h'; exact absurd h (by decide))

theorem takeWhile_all_append (p : Char → Bool) (l : List Char) (y : Char)
    (ys : List Char) (hl : ∀ a ∈ l, p a = true) (hy : p y = false) :
    (l ++ y :: ys).takeWhile p = l := by
  induction l with
  | nil => simp [List.takeWhile_cons, hy]
  | cons a l ih =>
    have ha := hl a (by simp)
    simp [List.takeWhile_cons, ha, ih (fun b hb => hl b (by simp [hb]))]

theorem drop_append_le (l m : List Char) (n : Nat) (h : n ≤ l.length) :
    (l ++ m).drop n = l.drop n ++ m := by
  induction l generalizing n with
  | nil => simp [Nat.le_zero.mp h]
  | cons a l ih =>
    cases n with
    | zero => simp
    | succ n => simpa using ih n (Nat.le_of_succ_le_succ h)

theorem isPrefixOf_append_of (p l r : List Char)
    (h : p.isPrefixOf l = true) : p.isPrefixOf (l ++ r) = true := by
  induction p generalizing l with
  | nil => simp [List.isPrefixOf]
  | cons c p ih =>
    cases l with
    | nil => simp [List.isPrefixOf] at h
    | cons d l =>
      simp only [List.isPrefixOf, List.cons_append, Bool.and_eq_true] at h ⊢
      exact ⟨h.1, ih l h.2⟩

theorem isPrefixOf_self_append (p r : List Char) :
    p.isPrefixOf (p ++ r) = true := by
  induction p with
  | nil => simp [List.isPrefixOf]
  | cons c p ih => simp [List.isPrefixOf, ih]

theorem lastCand_append_right (B r : List Char) (h : lastCand B = some r)
    (A : List Char) : lastCand (A ++ B) = some r := by
  induction A with
  | nil => simpa using h
  | cons a A ih => simp [lastCand, ih]

theorem lastCand_nonws_append (A X : List Char)
    (hA : ∀ c ∈ A, isWsB c = false) : lastCand (A ++ X) = lastCand X := by
  induction A with
  | nil => simp
  | cons a A ih =>
    have ha : isWsB a = false := hA a (by simp)
    have ih' := ih (fun c hc => hA c (by simp [hc]))
    rw [List.cons_append]
    show (match lastCand (A ++ X) with
          | some x => some x
          | none => candHere a (A ++ X)) = lastCand X
    rw [ih']
    cases h : lastCand X with
    | some x => rfl
    | none => simp [candHere, ha]

theorem lastCand_ws_tok (w d : Char) (tok rest : List Char)
    (hw : isWsB w = true) (htok : tok ≠ [])
    (ha : ∀ c ∈ tok, isAlphaB c = true) (hd : isWsB d = true)
    (hnone : lastCand (tok ++ d :: rest) = none) :
    lastCand (w :: (tok ++ d :: rest)) = some tok := by
  have htw : (tok ++ d :: rest).takeWhile isAlphaB = tok :=
    takeWhile_all_append _ _ _ _ ha (ws_not_alpha d hd)
  obtain ⟨c, tok', htk⟩ := List.exists_cons_of_ne_nil htok
  show (match lastCand (tok ++ d :: rest) with
        | some x => some x
        | none => candHere w (tok ++ d :: rest)) = some tok
  rw [hnone]
  simp only [candHere, hw, if_true, htw]
  rw [List.drop_left]
  subst htk
  simp [hd]

theorem dropAfterFirst_append (idt : List Char) (D : List Char) :
    ∀ (B : List Char) (i : Nat), idt.isPrefixOf (D.drop i) = true →
      i + idt.length ≤ D.length →
      ∃ C, dropAfterFirst idt (D ++ B) = some (C ++ B) := by
  induction D with
  | nil =>
    intro B i hpre hlen
    have hid : idt = [] := List.length_eq_zero.mp
      (by simp only [List.length_nil, Nat.le_zero] at hlen; omega)
    subst hid
    cases B with
    | nil => exact ⟨[], by simp [dropAfterFirst, List.isPrefixOf]⟩
    | cons b bs => exact ⟨[], by simp [dropAfterFirst, List.isPrefixOf]⟩
  | cons d D ih =>
    intro B i hpre hlen
    by_cases hp : idt.isPrefixOf (d :: (D ++ B)) = true
    · refine ⟨(d :: D).drop idt.length, ?_⟩
      have hle : idt.length ≤ (d :: D).length := by simp at hlen ⊢; omega
      have hdrop : (d :: (D ++ B)).drop idt.length =
          (d :: D).drop idt.length ++ B := by
        have := drop_append_le (d :: D) B idt.length hle
        simpa using this
      simp [dropAfterFirst, hp, hdrop]
    · have hi : i ≠ 0 := by
        intro h0
        subst h0
        simp only [List.drop_zero] at hpre
        exact hp (by simpa using isPrefixOf_append_of idt (d :: D) B hpre)
      obtain ⟨i', rfl⟩ : ∃ i', i = i' + 1 := ⟨i - 1, by omega⟩
      have hpre' : idt.isPrefixOf (D.drop i') = true := by
        simpa [List.drop_succ_cons] using hpre
      obtain ⟨C, hC⟩ := ih B i' hpre' (by simp at hlen; omega)
      exact ⟨C, by simp [dropAfterFirst, hp, hC]⟩

theorem pyStrItems_append_last (ms : List (List Char)) (e : List Char) :
    ∃ Dp, pyStrItems (ms ++ [e]) = Dp ++ (quoteC :: pyReprStr e ++ [quoteC]) := by
  induction ms with
  | nil => exact ⟨[], by simp [pyStrItems]⟩
  | cons m ms ih =>
    cases ms with
    | nil =>
      refine ⟨quoteC :: pyReprStr m ++ [quoteC, ',', ' '], ?_⟩
      simp [pyStrItems]
    | cons m' ms' =>
      obtain ⟨Dp, hDp⟩ := ih
      refine ⟨quoteC :: pyReprStr m ++ quoteC :: ',' :: ' ' :: Dp, ?_⟩
      simp only [List.cons_append, pyStrItems]
      have hDp' : pyStrItems (m' :: ms'.append [e]) =
          Dp ++ (quoteC :: pyReprStr e ++ [quoteC]) := hDp
      rw [hDp']
      simp

theorem pyReprChar_plain (c : Char) (h : reprPlain c = true) :
    pyReprChar c = [c] := by
  unfold pyReprChar
  split_ifs with h1 h2 h3 h4 h5
  · exact absurd h (by subst h1; decide)
  · exact absurd h (by subst h2; decide)
  · exact absurd h (by subst h3; decide)
  · exact absurd h (by subst h4; decide)
  · exact absurd h (by subst h5; decide)
  · rfl

theorem reprPlain_of_alphanum (c : Char) (h : isAlphaNumB c = true) :
    reprPlain c = true := by
  cases hr : reprPlain c with
  | true => rfl
  | false =>
    have hcs : c = '\n' ∨ c = '\t' ∨ c = '\r' ∨ c = '\x0b' ∨ c = '\x0c' := by
      by_contra hcon
      push_neg at hcon
      have hp : reprPlain c = true := by
        simp [reprPlain, hcon.1, hcon.2.1, hcon.2.2.1, hcon.2.2.2.1,
          hcon.2.2.2.2]
      rw [hp] at hr
      exact Bool.noConfusion hr
    rcases hcs with h' | h' | h' | h' | h' <;>
      (subst h'; exact absurd h (by decide))

theorem reprPlain_of_alpha (c : Char) (h : isAlphaB c = true) :
    reprPlain c = true :=
  reprPlain_of_alphanum c (by simp [isAlphaNumB, h])

theorem pyReprStr_plain (l : List Char) (h : ∀ c ∈ l, reprPlain c = true) :
    pyReprStr l = l := by
  induction l with
  | nil => rfl
  | cons c l ih =>
    simp [pyReprStr, pyReprChar_plain c (h c (by simp)),
      ih (fun d hd => h d (by simp [hd]))]

theorem pyReprStr_append (a b : List Char) :
    pyReprStr (a ++ b) = pyReprStr a ++ pyReprStr b := by
  induction a with
  | nil => rfl
  | cons c a ih => simp [pyReprStr, ih]

theorem matchAtAnchor_none (idt : List Char) (ls : List (List Char))
    (h : ∀ l ∈ ls, idt.isPrefixOf (l.dropWhile isWsB) = false) :
    ∀ acc, matchAtAnchor idt acc ls = none := by
  induction ls with
  | nil => intro acc; rfl
  | cons l ls ih =>
    intro acc
    by_cases hws : l.all isWsB = true
    · rw [show matchAtAnchor idt acc (l :: ls) =
          matchAtAnchor idt (acc ++ l ++ ['\n']) ls from by
        simp [matchAtAnchor, hws]]
      exact ih (fun x hx => h x (List.mem_cons_of_mem l hx)) _
    · have hp := h l (List.mem_cons_self l ls)
      simp [matchAtAnchor, hws, hp]

theorem findEntriesGo_nil (idt : List Char) :
    ∀ (fuel : Nat) (ls : List (List Char)),
      (∀ l ∈ ls, idt.isPrefixOf (l.dropWhile isWsB) = false) →
      findEntriesGo idt fuel ls = [] := by
  intro fuel
  induction fuel with
  | zero => intro ls h; rfl
  | succ fuel ih =>
    intro ls h
    cases ls with
    | nil => rfl
    | cons l ls' =>
      simp only [findEntriesGo]
      rw [matchAtAnchor_none idt (l :: ls') h []]
      exact ih ls' (fun x hx => h x (List.mem_cons_of_mem l hx))

theorem findEntriesGo_filter (idt : List Char) :
    ∀ (fuel : Nat) (ls : List (List Char)), ls.length ≤ fuel →
      (∀ l ∈ ls, l.all isWsB = false ∧
        (idt.isPrefixOf (l.dropWhile isWsB) = true → matchLine idt l = true)) →
      findEntriesGo idt fuel ls = ls.filter (fun l => matchLine idt l) := by
  intro fuel
  induction fuel with
  | zero =>
    intro ls hlen h
    have hnil : ls = [] := List.length_eq_zero.mp (by omega)
    subst hnil
    rfl
  | succ fuel ih =>
    intro ls hlen h
    cases ls with
    | nil => rfl
    | cons l ls' =>
      have hl := h l (List.mem_cons_self l ls')
      have hrest := fun x hx => h x (List.mem_cons_of_mem l hx)
      have hlen' : ls'.length ≤ fuel := by
        simp only [List.length_cons] at hlen
        omega
      by_cases hpre : idt.isPrefixOf (l.dropWhile isWsB) = true
      · have hml := hl.2 hpre
        obtain ⟨c, rest, hc, hcw⟩ : ∃ c rest,
            (l.dropWhile isWsB).drop idt.length = c :: rest ∧
              isWsB c = true := by
          have hml' := hml
          simp only [matchLine, Bool.and_eq_true] at hml'
          obtain ⟨-, h2⟩ := hml'
          cases hcc : (l.dropWhile isWsB).drop idt.length with
          | nil => rw [hcc] at h2; simp at h2
          | cons c rest => rw [hcc] at h2; exact ⟨c, rest, rfl, h2⟩
        have htm : matchAtAnchor idt [] (l :: ls') = some (l, ls') := by
          simp only [matchAtAnchor]
          rw [if_neg (by simp [hl.1]), if_pos hpre, hc]
          simp [hcw]
        simp only [findEntriesGo, htm]
        rw [ih ls' hlen' hrest]
        simp [List.filter_cons, hml]
      · have hml : matchLine idt l = false := by
          cases hm : matchLine idt l with
          | false => rfl
          | true =>
            simp only [matchLine, Bool.and_eq_true] at hm
            exact absurd hm.1 hpre
        have htm : matchAtAnchor idt [] (l :: ls') = none := by
          simp only [matchAtAnchor]
          rw [if_neg (by simp [hl.1])]
          simp [hpre]
        simp only [findEntriesGo, htm]
        rw [ih ls' hlen' hrest]
        simp [List.filter_cons, hml]

theorem matchLine_mk (idt rest : List Char) (hne : idt ≠ [])
    (han : ∀ c ∈ idt, isAlphaNumB c = true) :
    matchLine idt (' ' :: idt ++ ' ' :: rest) = true := by
  obtain ⟨c, idt', htk⟩ := List.exists_cons_of_ne_nil hne
  have hc : isWsB c = false := alphanum_not_ws c (han c (by simp [htk]))
  have hdw : (' ' :: idt ++ ' ' :: rest).dropWhile isWsB = idt ++ ' ' :: rest := by
    subst htk
    simp [List.dropWhile_cons, hc, show isWsB ' ' = true by decide]
  simp only [matchLine, hdw, Bool.and_eq_true]
  refine ⟨isPrefixOf_self_append idt (' ' :: rest), ?_⟩
  rw [List.drop_left]
  exact (by decide : isWsB ' ' = true)

theorem dropAfterFirst_head_notin (c : Char) (idt' S : List Char)
    (h : c ∉ S) : dropAfterFirst (c :: idt') S = none := by
  induction S with
  | nil => simp [dropAfterFirst, List.isPrefixOf]
  | cons s S ih =>
    have hcs : (c == s) = false := by
      cases hq : c == s with
      | false => rfl
      | true =>
        have hc := beq_iff_eq.mp hq
        subst hc
        exact absurd (List.mem_cons_self c S) h
    have hpre : ((c :: idt').isPrefixOf (s :: S)) = false := by
      simp [List.isPrefixOf, hcs]
    simp [dropAfterFirst, hpre,
      ih (fun hm => h (List.mem_cons_of_mem s hm))]

/-- Claim C6 counterexample: with two queue entries whose first field is the
identifier 123, carrying statuses Eqw (first entry) and r (second entry),
the parser returns r, the token of the SECOND entry; the first entry alone
parses to Eqw, so the result is not the status column of the first matching
entry as claimed. -/
theorem c6_first_entry_counterex :
    getStatusM ("123".data)
      (getJobLines ("123".data)
        (" 123 0.5 jobA alice Eqw 10/12\n 123 0.5 jobB bob r 10/12\n".data))
      (" 123 0.5 jobA alice Eqw 10/12\n 123 0.5 jobB bob r 10/12\n".data) =
      some ("r".data) ∧
    extractTok ("123".data)
      (pyStrList [(" 123 0.5 jobA alice Eqw 10/12".data)]) =
      some ("Eqw".data) := by decide

/-- Claim C6 (amended): for an identifier that is a nonempty alphanumeric
token, (a) when the identifier is nowhere the first non-whitespace content
of a snapshot line - so that no entry of the queue-listing pattern can
match - the parser returns absent and the presence predicate is false; and
(b) when the LAST line is an entry of the shape space, identifier, space,
middle fields, space, status token (nonempty alphabetic) followed by a
space and trailing text that is escape-free and contains no further
whitespace-delimited alphabetic token, while the earlier lines are neither
whitespace-only nor identifier-led without an in-line status (so the
findall scan stays line-by-line), the parser returns that LAST matching
entry's status token (not the first entry's) and the presence predicate is
true. -/
theorem c6_parser_last_entry :
    (∀ (idt snap : List Char), idt ≠ [] →
      (∀ c ∈ idt, isAlphaNumB c = true) →
      (∀ l ∈ splitLines snap, idt.isPrefixOf (l.dropWhile isWsB) = false) →
      getStatusM idt (getJobLines idt snap) snap = none ∧
        getIsPresentM (getJobLines idt snap) = false)
    ∧
    (∀ (idt mid tok tail : List Char) (pre : List (List Char))
      (snap : List Char), idt ≠ [] →
      (∀ c ∈ idt, isAlphaNumB c = true) →
      tok ≠ [] →
      (∀ c ∈ tok, isAlphaB c = true) →
      (∀ c ∈ tail, reprPlain c = true) →
      lastCand (' ' :: (tail ++ [quoteC, ']'])) = none →
      (∀ l ∈ pre, l.all isWsB = false ∧
        (idt.isPrefixOf (l.dropWhile isWsB) = true → matchLine idt l = true)) →
      splitLines snap =
        pre ++ [' ' :: (idt ++ ' ' :: (mid ++ ' ' :: (tok ++ ' ' :: tail)))] →
      getStatusM idt (getJobLines idt snap) snap = some tok ∧
        getIsPresentM (getJobLines idt snap) = true) := by
  constructor
  · intro idt snap hne han hnomatch
    have hjl : getJobLines idt snap = [] :=
      findEntriesGo_nil idt (splitLines snap).length (splitLines snap)
        hnomatch
    obtain ⟨c, idt', rfl⟩ := List.exists_cons_of_ne_nil hne
    have hcL : (c == '[') = false := by
      cases h : c == '[' with
      | false => rfl
      | true =>
        have hc := beq_iff_eq.mp h
        subst hc
        exact absurd (han '[' (by simp)) (by decide)
    have hcR : (c == ']') = false := by
      cases h : c == ']' with
      | false => rfl
      | true =>
        have hc := beq_iff_eq.mp h
        subst hc
        exact absurd (han ']' (by simp)) (by decide)
    have hnotin : c ∉ pyStrList [] := by
      intro hm
      simp [pyStrList, pyStrItems] at hm
      rcases hm with hm | hm
      · subst hm; simp at hcL
      · subst hm; simp at hcR
    have hd : dropAfterFirst (c :: idt') (pyStrList []) = none :=
      dropAfterFirst_head_notin c idt' _ hnotin
    constructor
    · simp [getStatusM, hjl, extractTok, hd]
    · simp [getIsPresentM, hjl]
  · intro idt mid tok tail pre snap hne han htokne htoka htailp htail hpre
      hsplit
    have hml : matchLine idt
        (' ' :: (idt ++ ' ' :: (mid ++ ' ' :: (tok ++ ' ' :: tail)))) = true := by
      have h := matchLine_mk idt (mid ++ ' ' :: (tok ++ ' ' :: tail)) hne han
      simpa using h
    have hfw : (' ' :: (idt ++ ' ' :: (mid ++ ' ' :: (tok ++ ' ' :: tail)))).all
        isWsB = false := by
      obtain ⟨c, idt', hct⟩ := List.exists_cons_of_ne_nil hne
      have hc := alphanum_not_ws c (han c (by simp [hct]))
      subst hct
      simp [List.all_cons, List.all_append, hc]
    have hall : ∀ l ∈ pre ++
        [' ' :: (idt ++ ' ' :: (mid ++ ' ' :: (tok ++ ' ' :: tail)))],
        l.all isWsB = false ∧
          (idt.isPrefixOf (l.dropWhile isWsB) = true →
            matchLine idt l = true) := by
      intro l hl
      rcases List.mem_append.mp hl with hl | hl
      · exact hpre l hl
      · rw [List.mem_singleton.mp hl]
        exact ⟨hfw, fun _ => hml⟩
    have hjl : getJobLines idt snap =
        (pre.filter (fun l => matchLine idt l)) ++
          [' ' :: (idt ++ ' ' :: (mid ++ ' ' :: (tok ++ ' ' :: tail)))] := by
      unfold getJobLines
      rw [hsplit]
      rw [findEntriesGo_filter idt
        (pre ++
          [' ' :: (idt ++ ' ' :: (mid ++ ' ' :: (tok ++ ' ' :: tail)))]).length
        _ (le_refl _) hall]
      rw [List.filter_append]
      simp [hml]
    have hidr : pyReprStr idt = idt :=
      pyReprStr_plain idt (fun c hc => reprPlain_of_alphanum c (han c hc))
    have htokr : pyReprStr tok = tok :=
      pyReprStr_plain tok (fun c hc => reprPlain_of_alpha c (htoka c hc))
    have htailr : pyReprStr tail = tail := pyReprStr_plain tail htailp
    have hsp : pyReprChar ' ' = [' '] := by decide
    have hrepr : pyReprStr
        (' ' :: (idt ++ ' ' :: (mid ++ ' ' :: (tok ++ ' ' :: tail)))) =
        ' ' :: (idt ++ ' ' :: (pyReprStr mid ++ ' ' :: (tok ++ ' ' :: tail))) := by
      show pyReprChar ' ' ++ pyReprStr
          (idt ++ ' ' :: (mid ++ ' ' :: (tok ++ ' ' :: tail))) = _
      rw [hsp, pyReprStr_append]
      show ' ' :: (pyReprStr idt ++ (pyReprChar ' ' ++ pyReprStr
          (mid ++ ' ' :: (tok ++ ' ' :: tail)))) = _
      rw [hsp, hidr, pyReprStr_append]
      show ' ' :: (idt ++ (' ' :: (pyReprStr mid ++ (pyReprChar ' ' ++
          pyReprStr (tok ++ ' ' :: tail))))) = _
      rw [hsp, pyReprStr_append, htokr]
      show ' ' :: (idt ++ (' ' :: (pyReprStr mid ++ (' ' :: (tok ++
          (pyReprChar ' ' ++ pyReprStr tail)))))) = _
      rw [hsp, htailr]
      simp
    have hBlast : lastCand (' ' :: (tok ++ ' ' :: (tail ++ [quoteC, ']']))) =
        some tok := by
      refine lastCand_ws_tok ' ' ' ' tok (tail ++ [quoteC, ']']) (by decide)
        htokne htoka (by decide) ?_
      rw [lastCand_nonws_append tok _
        (fun c hc => alpha_not_ws c (htoka c hc))]
      exact htail
    constructor
    · obtain ⟨Dp, hDp⟩ := pyStrItems_append_last
        (pre.filter (fun l => matchLine idt l))
        (' ' :: (idt ++ ' ' :: (mid ++ ' ' :: (tok ++ ' ' :: tail))))
      rw [hrepr] at hDp
      have hS : pyStrList (getJobLines idt snap) =
          (('[' :: (Dp ++ [quoteC, ' '])) ++ (idt ++ (' ' :: pyReprStr mid))) ++
            (' ' :: (tok ++ ' ' :: (tail ++ [quoteC, ']']))) := by
        rw [hjl]
        simp [pyStrList, hDp]
      obtain ⟨C, hC⟩ := dropAfterFirst_append idt
        (('[' :: (Dp ++ [quoteC, ' '])) ++ (idt ++ (' ' :: pyReprStr mid)))
        (' ' :: (tok ++ ' ' :: (tail ++ [quoteC, ']'])))
        (('[' :: (Dp ++ [quoteC, ' '])).length)
        (by rw [List.drop_left]
            exact isPrefixOf_self_append idt (' ' :: pyReprStr mid))
        (by simp; omega)
      have hjlne : (getJobLines idt snap).isEmpty = false := by
        rw [hjl]; simp
      unfold getStatusM extractTok
      rw [hjlne]
      simp only [Bool.false_eq_true, if_false]
      rw [hS, hC]
      exact lastCand_append_right _ tok hBlast C
    · simp [getIsPresentM, hjl]

/-- Witness for C6 (amended) at a concrete snapshot: a header line followed
by one entry for job 123 with status token r; the parser returns r and the
job is present. -/
theorem c6_parser_last_entry_witness :
    getStatusM ("123".data)
      (getJobLines ("123".data) ("header\n 123 0.5 jobB bob r 10/12".data))
      ("header\n 123 0.5 jobB bob r 10/12".data) = some ("r".data) ∧
    getIsPresentM
      (getJobLines ("123".data) ("header\n 123 0.5 jobB bob r 10/12".data)) =
      true :=
  c6_parser_last_entry.2 ("123".data) ("0.5 jobB bob".data) ("r".data)
    ("10/12".data) [("header".data)]
    ("header\n 123 0.5 jobB bob r 10/12".data)
    (by decide) (by decide) (by decide) (by decide) (by decide) (by decide)
    (by decide) (by decide)

/-! Monitor-loop lemmas and claims C1, C2, C3, C7, C8, C9, C10 -/

theorem jobUpdate_id (tbl : StateTable) (snap : List Char) (j : JobM) :
    (jobUpdate tbl snap j).1.id = j.id := rfl

theorem idsM_nil : idsM [] = 0 := rfl

theorem idsM_cons (x : JobM) (l : List JobM) :
    idsM (x :: l) = x.id ::ₘ idsM l := rfl

theorem idsM_append (l r : List JobM) : idsM (l ++ r) = idsM l + idsM r := by
  simp [idsM, Multiset.coe_add]

theorem idsM_set (l : List JobM) (i : Nat) (x : JobM) (h : i < l.length)
    (hid : x.id = (l.get ⟨i, h⟩).id) : idsM (l.set i x) = idsM l := by
  induction l generalizing i with
  | nil => simp at h
  | cons a l ih =>
    cases i with
    | zero =>
      have hxa : x.id = a.id := hid
      simp [List.set, idsM_cons, hxa]
    | succ i =>
      show idsM (a :: l.set i x) = idsM (a :: l)
      rw [idsM_cons, idsM_cons, ih i (by simpa using h) (by simpa using hid)]

theorem idsM_eraseIdx (l : List JobM) (i : Nat) (h : i < l.length) :
    idsM (l.eraseIdx i) + idsM [l.get ⟨i, h⟩] = idsM l := by
  induction l generalizing i with
  | nil => simp at h
  | cons a l ih =>
    cases i with
    | zero =>
      show idsM l + idsM [a] = idsM (a :: l)
      rw [add_comm, ← idsM_append]
      rfl
    | succ i =>
      have hh : i < l.length := by simpa using h
      show idsM (a :: l.eraseIdx i) + idsM [l.get ⟨i, hh⟩] = idsM (a :: l)
      rw [idsM_cons a (l.eraseIdx i), Multiset.cons_add, ih i hh, idsM_cons]

theorem idsM_pyRemove (l : List JobM) (x : JobM) (hx : x ∈ l) :
    idsM (pyRemove l x) + idsM [x] = idsM l := by
  induction l with
  | nil => simp at hx
  | cons a l ih =>
    by_cases ha : a = x
    · subst ha
      rw [show pyRemove (a :: l) a = l from by simp [pyRemove]]
      rw [add_comm, ← idsM_append]
      rfl
    · have hx' : x ∈ l := by
        rcases List.mem_cons.mp hx with h | h
        · exact absurd h.symm ha
        · exact h
      rw [show pyRemove (a :: l) x = a :: pyRemove l x from by
        simp [pyRemove, ha]]
      rw [idsM_cons a (pyRemove l x), Multiset.cons_add, ih hx', idsM_cons]

theorem pyRemove_length_le (l : List JobM) (x : JobM) :
    (pyRemove l x).length ≤ l.length := by
  induction l with
  | nil => simp [pyRemove]
  | cons a l ih =>
    by_cases ha : a = x
    · simp [pyRemove, ha]
    · simp only [pyRemove, if_neg ha, List.length_cons]
      omega

theorem eraseIdx_length_le (l : List JobM) (i : Nat) :
    (l.eraseIdx i).length ≤ l.length := by
  rw [List.length_eraseIdx]
  split <;> omega

theorem mem_set_self (l : List JobM) (i : Nat) (x : JobM)
    (h : i < l.length) : x ∈ l.set i x := by
  have h' : i < (l.set i x).length := by simpa [List.length_set] using h
  have hg := List.get_set_eq (l := l) (i := i) (a := x) h'
  exact List.mem_iff_get.mpr ⟨⟨i, h'⟩, hg⟩


theorem cycleStep_inv (env : Nat → List Char) (i : Nat) (s : MSt)
    (job : JobM) (s₁ : MSt) (hjob : s.jobs.get? i = some job)
    (hs : cycleStep env i s job = some s₁) :
    s₁.cancels = s.cancels ∧ s₁.jobs.length ≤ s.jobs.length ∧
    (idsM s₁.jobs + idsM s₁.removed + idsM s₁.errs =
      idsM s.jobs + idsM s.removed + idsM s.errs) ∧
    ∃ ext, s₁.trace = s.trace ++ ext := by
  obtain ⟨h, hget⟩ := List.get?_eq_some.mp hjob
  simp only [cycleStep] at hs
  set j₁ := (jobUpdate s.tbl (env s.t) job).1 with hj₁
  set tb₁ := (jobUpdate s.tbl (env s.t) job).2 with htb₁
  set j₂ := (jobUpdate tb₁ (env (s.t + 1)) j₁).1 with hj₂
  have hidj₁ : j₁.id = (s.jobs.get ⟨i, h⟩).id := by rw [hget]; rfl
  have hidj₂ : j₂.id = (s.jobs.get ⟨i, h⟩).id := by rw [hget]; rfl
  have hL : idsM (s.jobs.set i j₁) = idsM s.jobs := idsM_set s.jobs i j₁ h hidj₁
  have hmem : j₁ ∈ s.jobs.set i j₁ := mem_set_self s.jobs i j₁ h
  have hrem := idsM_pyRemove (s.jobs.set i j₁) j₁ hmem
  cases hp : j₁.is_present.getD false with
  | false =>
    rw [hp] at hs
    simp only [Bool.false_eq_true, if_false] at hs
    cases he : j₂.is_error.getD false with
    | false =>
      rw [he] at hs
      simp only [Bool.false_eq_true, if_false] at hs
      have hR := Option.some.inj hs
      subst hR
      refine ⟨rfl, ?_, ?_, ?_⟩
      · calc (pyRemove (s.jobs.set i j₁) j₁).length
            ≤ (s.jobs.set i j₁).length := pyRemove_length_le _ _
          _ = s.jobs.length := List.length_set ..
      · show idsM (pyRemove (s.jobs.set i j₁) j₁) +
            idsM (s.removed ++ [j₁]) + idsM s.errs =
            idsM s.jobs + idsM s.removed + idsM s.errs
        rw [idsM_append]
        calc idsM (pyRemove (s.jobs.set i j₁) j₁) +
              (idsM s.removed + idsM [j₁]) + idsM s.errs
            = idsM (pyRemove (s.jobs.set i j₁) j₁) + idsM [j₁] +
              idsM s.removed + idsM s.errs := by abel
          _ = idsM (s.jobs.set i j₁) + idsM s.removed + idsM s.errs := by
              rw [hrem]
          _ = idsM s.jobs + idsM s.removed + idsM s.errs := by rw [hL]
      · exact ⟨[.presentChk job.id false, .removedAbs j₁.id,
          .errorChk j₁.id false], by simp⟩
    | true =>
      rw [he] at hs
      simp only [eq_self_iff_true, if_true] at hs
      cases hstuck : (pyRemove (s.jobs.set i j₁) j₁).get? i with
      | none => rw [hstuck] at hs; exact absurd hs (by simp)
      | some stuck =>
        rw [hstuck] at hs
        obtain ⟨hq, hgq⟩ := List.get?_eq_some.mp hstuck
        have hR := Option.some.inj hs
        subst hR
        refine ⟨rfl, ?_, ?_, ?_⟩
        · calc ((pyRemove (s.jobs.set i j₁) j₁).eraseIdx i).length
              ≤ (pyRemove (s.jobs.set i j₁) j₁).length :=
                eraseIdx_length_le _ _
            _ ≤ (s.jobs.set i j₁).length := pyRemove_length_le _ _
            _ = s.jobs.length := List.length_set ..
        · have herase := idsM_eraseIdx (pyRemove (s.jobs.set i j₁) j₁) i hq
          rw [hgq] at herase
          show idsM ((pyRemove (s.jobs.set i j₁) j₁).eraseIdx i) +
              idsM (s.removed ++ [j₁]) + idsM (s.errs ++ [stuck]) =
              idsM s.jobs + idsM s.removed + idsM s.errs
          rw [idsM_append, idsM_append]
          calc idsM ((pyRemove (s.jobs.set i j₁) j₁).eraseIdx i) +
                (idsM s.removed + idsM [j₁]) + (idsM s.errs + idsM [stuck])
              = idsM ((pyRemove (s.jobs.set i j₁) j₁).eraseIdx i) +
                idsM [stuck] + idsM [j₁] + idsM s.removed + idsM s.errs := by
                  abel
            _ = idsM (pyRemove (s.jobs.set i j₁) j₁) + idsM [j₁] +
                idsM s.removed + idsM s.errs := by rw [herase]
            _ = idsM (s.jobs.set i j₁) + idsM s.removed + idsM s.errs := by
                rw [hrem]
            _ = idsM s.jobs + idsM s.removed + idsM s.errs := by rw [hL]
        · exact ⟨[.presentChk job.id false, .removedAbs j₁.id,
            .errorChk j₁.id true, .movedStuck stuck.id], by simp⟩
  | true =>
    rw [hp] at hs
    simp only [eq_self_iff_true, if_true] at hs
    cases he : j₂.is_error.getD false with
    | false =>
      rw [he] at hs
      simp only [Bool.false_eq_true, if_false] at hs
      have hR := Option.some.inj hs
      subst hR
      refine ⟨rfl, ?_, ?_, ?_⟩
      · rw [List.set_set, List.length_set]
      · show idsM ((s.jobs.set i j₁).set i j₂) + idsM s.removed +
            idsM s.errs = idsM s.jobs + idsM s.removed + idsM s.errs
        rw [List.set_set, idsM_set s.jobs i j₂ h hidj₂]
      · exact ⟨[.presentChk job.id true, .errorChk j₁.id false], by simp⟩
    | true =>
      rw [he] at hs
      simp only [eq_self_iff_true, if_true] at hs
      cases hstuck : ((s.jobs.set i j₁).set i j₂).get? i with
      | none => rw [hstuck] at hs; exact absurd hs (by simp)
      | some stuck =>
        rw [hstuck] at hs
        obtain ⟨hq, hgq⟩ := List.get?_eq_some.mp hstuck
        have hR := Option.some.inj hs
        subst hR
        refine ⟨rfl, ?_, ?_, ?_⟩
        · calc (((s.jobs.set i j₁).set i j₂).eraseIdx i).length
              ≤ ((s.jobs.set i j₁).set i j₂).length := eraseIdx_length_le _ _
            _ = s.jobs.length := by rw [List.set_set, List.length_set]
        · have herase := idsM_eraseIdx ((s.jobs.set i j₁).set i j₂) i hq
          rw [hgq] at herase
          show idsM (((s.jobs.set i j₁).set i j₂).eraseIdx i) +
              idsM s.removed + idsM (s.errs ++ [stuck]) =
              idsM s.jobs + idsM s.removed + idsM s.errs
          rw [idsM_append]
          calc idsM (((s.jobs.set i j₁).set i j₂).eraseIdx i) +
                idsM s.removed + (idsM s.errs + idsM [stuck])
              = idsM (((s.jobs.set i j₁).set i j₂).eraseIdx i) +
                idsM [stuck] + idsM s.removed + idsM s.errs := by abel
            _ = idsM ((s.jobs.set i j₁).set i j₂) + idsM s.removed +
                idsM s.errs := by rw [herase]
            _ = idsM s.jobs + idsM s.removed + idsM s.errs := by
                rw [List.set_set, idsM_set s.jobs i j₂ h hidj₂]
        · exact ⟨[.presentChk job.id true, .errorChk j₁.id true,
            .movedStuck stuck.id], by simp⟩

theorem cycleStep_absent_trace (env : Nat → List Char) (i : Nat) (s : MSt)
    (job : JobM) (s₁ : MSt)
    (hp : (jobUpdate s.tbl (env s.t) job).1.is_present.getD false = false)
    (hs : cycleStep env i s job = some s₁) :
    ∃ e rest, s₁.trace = s.trace ++
      [.presentChk job.id false, .removedAbs job.id, .errorChk job.id e] ++
        rest := by
  simp only [cycleStep] at hs
  set j₁ := (jobUpdate s.tbl (env s.t) job).1 with hj₁
  set tb₁ := (jobUpdate s.tbl (env s.t) job).2 with htb₁
  set j₂ := (jobUpdate tb₁ (env (s.t + 1)) j₁).1 with hj₂
  have hidj₁ : j₁.id = job.id := rfl
  rw [hp] at hs
  simp only [Bool.false_eq_true, if_false] at hs
  cases he : j₂.is_error.getD false with
  | false =>
    rw [he] at hs
    simp only [Bool.false_eq_true, if_false] at hs
    have hR := Option.some.inj hs
    subst hR
    exact ⟨false, [], by simp [hidj₁]⟩
  | true =>
    rw [he] at hs
    simp only [eq_self_iff_true, if_true] at hs
    cases hstuck : (pyRemove (s.jobs.set i j₁) j₁).get? i with
    | none => rw [hstuck] at hs; exact absurd hs (by simp)
    | some stuck =>
      rw [hstuck] at hs
      have hR := Option.some.inj hs
      subst hR
      exact ⟨true, [.movedStuck stuck.id], by simp [hidj₁]⟩

theorem cycleLoopF_ok_inv (env : Nat → List Char) :
    ∀ (fuel i : Nat) (s s' : MSt), cycleLoopF env fuel i s = .ok s' →
      s'.cancels = s.cancels ∧ s'.jobs.length ≤ s.jobs.length ∧
      (idsM s'.jobs + idsM s'.removed + idsM s'.errs =
        idsM s.jobs + idsM s.removed + idsM s.errs) ∧
      ∃ ext, s'.trace = s.trace ++ ext := by
  intro fuel
  induction fuel with
  | zero =>
    intro i s s' h
    simp only [cycleLoopF] at h
    split at h
    · have hss := CycleRes.ok.inj h
      subst hss
      exact ⟨rfl, le_refl _, rfl, [], by simp⟩
    · exact absurd h (by simp)
  | succ fuel ih =>
    intro i s s' h
    simp only [cycleLoopF] at h
    split at h
    next job hjob =>
      split at h
      next s₁ hstep =>
        obtain ⟨hc1, hl1, hi1, ext1, ht1⟩ :=
          cycleStep_inv env i s job s₁ hjob hstep
        obtain ⟨hc2, hl2, hi2, ext2, ht2⟩ := ih (i + 1) s₁ s' h
        exact ⟨hc2.trans hc1, hl2.trans hl1, hi2.trans hi1,
          ext1 ++ ext2, by rw [ht2, ht1, List.append_assoc]⟩
      next hstep => exact absurd h (by simp)
    next hjob =>
      have hss := CycleRes.ok.inj h
      subst hss
      exact ⟨rfl, le_refl _, rfl, [], by simp⟩

theorem postProc_fields (ke : Bool) (s : MSt) :
    (postProc ke s).jobs = s.jobs ∧ (postProc ke s).errs = s.errs ∧
    (postProc ke s).removed = s.removed ∧
    (s.cancels = [] → (postProc ke s).cancels =
      (if s.errs.isEmpty then [] else
        if ke then [qdelCmd s.errs] else [])) := by
  unfold postProc
  split_ifs <;> simp_all

theorem monitorLoop_finished (env : Nat → List Char) (ke : Bool) :
    ∀ (fuel n : Nat) (s sF : MSt), s.jobs.length ≤ n →
      monitorLoop env ke fuel n s = .finished sF →
      sF.jobs = [] ∧
      (idsM sF.removed + idsM sF.errs =
        idsM s.jobs + idsM s.removed + idsM s.errs) ∧
      (s.cancels = [] → sF.cancels =
        (if sF.errs.isEmpty then [] else
          if ke then [qdelCmd sF.errs] else [])) := by
  intro fuel
  induction fuel with
  | zero =>
    intro n s sF hlen h
    simp only [monitorLoop] at h
    split at h
    · exact absurd h (by simp)
    · have hn : n = 0 := by omega
      have hjobs : s.jobs = [] := by
        rw [← List.length_eq_zero]
        omega
      have hss := MonOut.finished.inj h
      subst hss
      obtain ⟨hpj, hpe, hpr, hpc⟩ := postProc_fields ke s
      refine ⟨by rw [hpj, hjobs], ?_, ?_⟩
      · rw [hpr, hpe, hjobs]
        simp [idsM_nil]
      · intro hc0
        rw [hpe, hpc hc0]
  | succ fuel ih =>
    intro n s sF hlen h
    simp only [monitorLoop] at h
    split at h
    case isTrue hn =>
      cases hc : monitorCycle env s with
      | ok s' =>
        rw [hc] at h
        obtain ⟨hc1, hl1, hi1, ext1, ht1⟩ :=
          cycleLoopF_ok_inv env s.jobs.length 0 s s' hc
        obtain ⟨hf1, hf2, hf3⟩ := ih s.jobs.length s' sF hl1 h
        refine ⟨hf1, ?_, ?_⟩
        · rw [hf2, hi1]
        · intro hc0
          exact hf3 (hc1.trans hc0)
      | indexErr => rw [hc] at h; exact absurd h (by simp)
      | outOfFuel => rw [hc] at h; exact absurd h (by simp)
    case isFalse hn =>
      have hjobs : s.jobs = [] := by
        rw [← List.length_eq_zero]
        omega
      have hss := MonOut.finished.inj h
      subst hss
      obtain ⟨hpj, hpe, hpr, hpc⟩ := postProc_fields ke s
      refine ⟨by rw [hpj, hjobs], ?_, ?_⟩
      · rw [hpr, hpe, hjobs]
        simp [idsM_nil]
      · intro hc0
        rw [hpe, hpc hc0]

theorem monitor_jobs_finished (l : List JobM) (ke : Bool)
    (env : Nat → List Char) (fuel : Nat) (tbl : StateTable) (sF : MSt)
    (h : finishedState (monitor_jobs (.pylist l) ke env fuel tbl) = some sF) :
    monitorLoop env ke fuel l.length
      { t := 0, tbl := tbl, jobs := l, errs := [], removed := [],
        trace := [], cancels := [] } = .finished sF := by
  by_cases hl : l.isEmpty
  · simp [monitor_jobs, argTruthy, hl, finishedState] at h
  · have hlen : ¬ l.length < 1 := by
      cases l with
      | nil => simp at hl
      | cons a l => simp
    simp only [monitor_jobs, argTruthy, hl, Bool.not_false, pyLen] at h
    rw [if_neg (by simp), if_neg hlen] at h
    cases hout : monitorLoop env ke fuel l.length
        { t := 0, tbl := tbl, jobs := l, errs := [], removed := [],
          trace := [], cancels := [] } with
    | finished s =>
      rw [hout] at h
      have hsf : s = sF := by simpa [finishedState] using h
      rw [hsf]
    | crashed => rw [hout] at h; simp [finishedState] at h
    | fuelOut => rw [hout] at h; simp [finishedState] at h
    | broken => rw [hout] at h; simp [finishedState] at h

/-- Claim C1 (evaluation at the failing input): in one poll cycle over the
cohort [111, 222] with an empty queue snapshot, job 111 is found absent and
removed in place, after which the iteration index skips job 222: although
222 was in the active collection at the start of the cycle, the cycle's
trace contains no event for it at all and it is left unevaluated, refuting
the claim that every active job is evaluated exactly once per cycle. -/
theorem c1_cycle_skips_second_job :
    jobB ∈ (initSt [jobA, jobB]).jobs ∧
    cycleTrace (monitorCycle emptyEnv (initSt [jobA, jobB])) =
      [.presentChk ("111".data) false, .removedAbs ("111".data),
       .errorChk ("111".data) false] ∧
    cycleJobs (monitorCycle emptyEnv (initSt [jobA, jobB])) = [jobB] := by
  decide

/-- Claim C2 counterexample: in a poll cycle over the single job 321 with an
empty queue snapshot, the job is found absent and removed, and an error
check on that same job is nevertheless still performed in the same cycle
(the trace records the error check after the removal), refuting the claim
that no error check is performed on an absent job. -/
theorem c2_absent_error_counterex :
    cycleTrace (monitorCycle emptyEnv (initSt [jobD])) =
      [.presentChk ("321".data) false, .removedAbs ("321".data),
       .errorChk ("321".data) false] := by
  decide

/-- Claim C2 (amended): a job found absent at its presence check is deleted
from the active collection immediately, but an error check (a further fresh
poll) is still performed on that job in the same iteration, after the
deletion: whenever iteration i of a completed cycle finds its job absent,
the cycle trace contains, right after the events already accumulated, the
presence check, the removal, and then the error check of that job. -/
theorem c2_absent_removed_then_error_checked
    (env : Nat → List Char) (fuel i : Nat) (s s' : MSt) (job : JobM)
    (hjob : s.jobs.get? i = some job)
    (hp : (jobUpdate s.tbl (env s.t) job).1.is_present.getD false = false)
    (hok : cycleLoopF env (fuel + 1) i s = .ok s') :
    ∃ e rest, s'.trace = s.trace ++
      [.presentChk job.id false, .removedAbs job.id, .errorChk job.id e] ++
        rest := by
  simp only [cycleLoopF] at hok
  rw [hjob] at hok
  simp only at hok
  cases hstep : cycleStep env i s job with
  | none => rw [hstep] at hok; exact absurd hok (by simp)
  | some s₁ =>
    rw [hstep] at hok
    obtain ⟨e, rest, htr⟩ := cycleStep_absent_trace env i s job s₁ hp hstep
    obtain ⟨-, -, -, ext, hext⟩ :=
      cycleLoopF_ok_inv env fuel (i + 1) s₁ s' hok
    refine ⟨e, rest ++ ext, ?_⟩
    rw [hext, htr]
    simp

/-- Witness for C2 (amended) at a concrete input: one cycle over the single
job 321 against an empty queue snapshot. -/
theorem c2_amended_witness :
    ∃ e rest,
      (cycleOkState (monitorCycle emptyEnv (initSt [jobD]))).trace =
        (initSt [jobD]).trace ++
          [.presentChk jobD.id false, .removedAbs jobD.id,
           .errorChk jobD.id e] ++ rest :=
  c2_absent_removed_then_error_checked emptyEnv 0 0 (initSt [jobD])
    (cycleOkState (monitorCycle emptyEnv (initSt [jobD]))) jobD
    (by decide) (by decide) (by decide)

/-- Claim C3 (evaluation at the failing input): over the cohort [111, 222],
with the queue empty at the first poll and showing 111 in Eqw state at the
second, job 111 is found absent and removed; its error check (a fresh poll)
then returns true, and `jobs.pop(i)` pops job 222 - whose own error check
never ran and never returned true - into the stuck collection; the run ends
with 222 in the stuck list and a qdel issued for 222, refuting the claim
that a handle moves to stuck only when that same handle's error check
returned true. -/
theorem c3_wrong_handle_stuck :
    (finishedState (monitor_jobs (.pylist [jobA, jobB]) true flickerEnv 5
        job_state_key)).map
      (fun s => (s.errs.map JobM.id, s.cancels, s.trace)) =
      some ([("222".data)], [("qdel 222".data)],
        [.presentChk ("111".data) false, .removedAbs ("111".data),
         .errorChk ("111".data) true, .movedStuck ("222".data)]) := by
  decide

/-- Claim C7 (evaluation at the failing input): after a full `_update`
against a snapshot showing job 111 in Eqw state (is_error true), a
`_debug_update` against an empty snapshot leaves `is_error` stale at true -
the source never assigns it - while `is_present` is refreshed to false and
a full `_update` against the same empty snapshot would derive
`is_error = false`; so after a `_debug_update` refresh the three derived
booleans are NOT all consistent with the snapshot used. -/
theorem c7_debug_update_stale_error :
    ((jobDebugUpdate (jobUpdate job_state_key eqwSnap111 jobA).2 []
        (jobUpdate job_state_key eqwSnap111 jobA).1).1.is_error =
      some true) ∧
    ((jobDebugUpdate (jobUpdate job_state_key eqwSnap111 jobA).2 []
        (jobUpdate job_state_key eqwSnap111 jobA).1).1.is_present =
      some false) ∧
    ((jobUpdate (jobUpdate job_state_key eqwSnap111 jobA).2 []
        (jobUpdate job_state_key eqwSnap111 jobA).1).1.is_error =
      some false) := by
  decide

/-- Claim C8: on any normal return of `monitor_jobs` over a list cohort,
if the stuck collection is nonempty and kill_err is set then exactly one
cancel command was issued, the single batched qdel naming all stuck job
identifiers; and no cancel command was issued when the stuck collection is
empty or kill_err is false. -/
theorem c8_single_batched_cancel (l : List JobM) (ke : Bool)
    (env : Nat → List Char) (fuel : Nat) (tbl : StateTable) (sF : MSt)
    (h : finishedState (monitor_jobs (.pylist l) ke env fuel tbl) = some sF) :
    (sF.errs ≠ [] → ke = true → sF.cancels = [qdelCmd sF.errs]) ∧
    ((sF.errs = [] ∨ ke = false) → sF.cancels = []) := by
  have hml := monitor_jobs_finished l ke env fuel tbl sF h
  obtain ⟨-, -, hcan⟩ :=
    monitorLoop_finished env ke fuel l.length _ sF (le_refl _) hml
  have hc := hcan rfl
  constructor
  · intro hne hke
    rw [hc]
    simp [hne, hke]
  · intro hor
    rw [hc]
    rcases hor with he | hke
    · simp [he]
    · simp [hke]

/-- Witness for C8 at a concrete run: a single job that is absent from
every snapshot; the run finishes with an empty stuck collection and no
cancel command. -/
theorem c8_single_batched_cancel_witness :
    ((finishedState (monitor_jobs (.pylist [jobA]) true emptyEnv 3
        job_state_key)).getD mstDefault).cancels = [] :=
  (c8_single_batched_cancel [jobA] true emptyEnv 3 job_state_key
      ((finishedState (monitor_jobs (.pylist [jobA]) true emptyEnv 3
        job_state_key)).getD mstDefault)
      (by decide)).2 (Or.inl (by decide))

/-- Claim C9 counterexample: `monitor_jobs` called with a truthy argument
that has no len() (e.g. an integer) raises an uncaught TypeError from the
length guard instead of reporting the invalid input and returning - the
result is not a reported early return with either of the two messages the
code can log. -/
theorem c9_unsized_counterex :
    monitor_jobs (.unsized true) true emptyEnv 1 job_state_key =
      .typeError ∧
    MonRes.typeError ≠ MonRes.earlyRet ("No jobs to monitor".data) ∧
    MonRes.typeError ≠ MonRes.earlyRet ("jobs passed is not a list".data) := by
  decide

/-- Claim C9 (amended): for every invalid jobs argument (None, empty list,
or not a list), the result is independent of the snapshot stream, the fuel
and the state table - in particular zero snapshot queries are performed and
no cancellation is issued; arguments other than a truthy unsized object are
rejected with a reported early return, but a truthy object without a length
(e.g. an integer) instead raises an uncaught TypeError from the length
guard. -/
theorem c9_invalid_amended :
    ∀ (a : JobsArg) (ke₁ ke₂ : Bool) (env env' : Nat → List Char)
      (fuel fuel' : Nat) (tbl tbl' : StateTable),
      isInvalidArg a = true →
      (monitor_jobs a ke₁ env fuel tbl =
        monitor_jobs a ke₂ env' fuel' tbl') ∧
      (a = .unsized true → monitor_jobs a ke₁ env fuel tbl = .typeError) ∧
      (a ≠ .unsized true →
        ∃ m, monitor_jobs a ke₁ env fuel tbl = .earlyRet m) := by
  intro a ke₁ ke₂ env env' fuel fuel' tbl tbl' hinv
  cases a with
  | pynone =>
    exact ⟨rfl, fun hh => absurd hh (by simp), fun _ => ⟨_, rfl⟩⟩
  | pylist L =>
    have hL : L = [] := by
      simpa [isInvalidArg, List.isEmpty_iff] using hinv
    subst hL
    exact ⟨rfl, fun hh => absurd hh (by simp), fun _ => ⟨_, rfl⟩⟩
  | sizedOther t n =>
    cases t with
    | false => exact ⟨rfl, fun hh => absurd hh (by simp), fun _ => ⟨_, rfl⟩⟩
    | true =>
      refine ⟨rfl, fun hh => absurd hh (by simp), fun _ => ?_⟩
      by_cases hn : n < 1
      · exact ⟨"No jobs to monitor".data,
          by simp [monitor_jobs, argTruthy, pyLen, hn]⟩
      · exact ⟨"jobs passed is not a list".data,
          by simp [monitor_jobs, argTruthy, pyLen, hn]⟩
  | unsized t =>
    cases t with
    | true => exact ⟨rfl, fun _ => rfl, fun hh => absurd rfl hh⟩
    | false => exact ⟨rfl, fun hh => absurd hh (by simp), fun _ => ⟨_, rfl⟩⟩

/-- Witness for C9 (amended): the None argument gives the same (reported,
poll-free) result whatever the snapshot stream, fuel, kill flag and table
are. -/
theorem c9_invalid_amended_witness :
    monitor_jobs .pynone true emptyEnv 0 job_state_key =
      monitor_jobs .pynone false flickerEnv 5 [] :=
  (c9_invalid_amended .pynone true false emptyEnv flickerEnv 0 5
    job_state_key [] (by decide)).1

/-- Claim C10: on any normal return of a `monitor_jobs` run over a list
cohort, the caller's list (threaded through the run as the active
collection, since the source mutates it in place) has been emptied, and the
multiset of job identifiers of the original cohort is exactly the union of
those removed for absence and those popped into the stuck collection. -/
theorem c10_drains_cohort (l : List JobM) (ke : Bool)
    (env : Nat → List Char) (fuel : Nat) (tbl : StateTable) (sF : MSt)
    (h : finishedState (monitor_jobs (.pylist l) ke env fuel tbl) = some sF) :
    sF.jobs = [] ∧ idsM l = idsM sF.removed + idsM sF.errs := by
  have hml := monitor_jobs_finished l ke env fuel tbl sF h
  obtain ⟨hj, hi, -⟩ :=
    monitorLoop_finished env ke fuel l.length _ sF (le_refl _) hml
  refine ⟨hj, ?_⟩
  rw [hi]
  simp [idsM_nil]

/-- Witness for C10 at a concrete run: a one-job cohort whose job is absent
from every snapshot; on return the active list is empty and the original
identifier sits in the removed-for-absence collection. -/
theorem c10_drains_cohort_witness :
    ((finishedState (monitor_jobs (.pylist [jobB]) false emptyEnv 3
        job_state_key)).getD mstDefault).jobs = [] ∧
    idsM [jobB] =
      idsM ((finishedState (monitor_jobs (.pylist [jobB]) false emptyEnv 3
        job_state_key)).getD mstDefault).removed +
      idsM ((finishedState (monitor_jobs (.pylist [jobB]) false emptyEnv 3
        job_state_key)).getD mstDefault).errs :=
  c10_drains_cohort [jobB] false emptyEnv 3 job_state_key _ (by decide)
